import Mathlib

/-!
Shallow embedding of the version-model core of bumpversion
(src/bumpversion/__init__.py): the class VersionPart and the class Version
with its parse, bump and serialization-format selection, together with
proofs about the claims of the specification.

Modelling conventions.
* Python strings are Lean strings; Python None is Option.none.
* Python dicts keyed by strings are association lists in insertion order
  (CPython preserves insertion order; the dict of named groups returned by
  groupdict is in group definition order).
* An exception that some caller catches becomes an error value of an
  Except/Option result; exceptions nobody catches are also error values
  (SerErr.uncaught), and a computation that ends in such an error is one
  that crashes the Python process.
* The regular-expression fragment the claims exercise (named groups of
  digit runs, literal characters, optional non-capturing groups) is
  embedded as the inductive Rx, with Python's leftmost, greedy,
  backtracking semantics: Rx.run lists the candidate matches at one
  position in backtracking priority order.
* str.format and string.Formatter.parse are embedded for simple fields
  of the shape open-brace name close-brace, with doubled-brace escapes;
  a conversion or format spec is ignored for the label, and positional,
  attribute or index fields map to the uncaught-error case.  This covers
  every template the specification mentions.
* The KeyError handler in Version._serialize follows the Python 2
  semantics the code was written for; under Python 3 the hasattr assert
  in that handler would turn the KeyError into an uncaught AssertionError.
-/

/-- Digit test used for the backslash-d character class of the Python
patterns in play (ASCII digits). -/
def isDig (c : Char) : Bool := c.isDigit

/-- Numeric value of a digit string, as Python int() on a digit run. -/
def digitsToNat (ds : List Char) : Nat :=
  ds.foldl (fun a c => a * 10 + (c.toNat - 48)) 0

/-- A single named segment of a version string (source class VersionPart).
The field `_value` is Python's self._value; none models Python None, the
value a named group that did not participate in the match contributes via
groupdict. -/
structure VersionPart where
  _value : Option String
  deriving DecidableEq, Repr

/-- Python property value: the expression self._value or "0", where both
None and the empty string are falsy. -/
def VersionPart.value (p : VersionPart) : String :=
  match p._value with
  | none => "0"
  | some s => if s = "" then "0" else s

/-- Source VersionPart.is_optional: the effective value equals "0". -/
def VersionPart.is_optional (p : VersionPart) : Bool := p.value = "0"

/-- Source VersionPart.zero: sets the stored value to "0". -/
def VersionPart.zero (_p : VersionPart) : VersionPart := ⟨some "0"⟩

/-- The match of the pattern FIRST_NUMERIC, three groups: non-digits, then
a digit run, then a dot-star suffix, searched in a string.  The first
group takes all characters before the first digit, the second the maximal
digit run there, and the dot-star group stops at the first newline (the
Python dot does not match a newline).  Returns none when the string holds
no digit, in which case the Python code dies on the NoneType result of
search (the spec calls this failure PatternMismatch). -/
def firstNumericSearch (s : List Char) : Option (List Char × List Char × List Char) :=
  if ((s.dropWhile (fun c => !isDig c)).takeWhile isDig).isEmpty then none
  else some (s.takeWhile (fun c => !isDig c),
    (s.dropWhile (fun c => !isDig c)).takeWhile isDig,
    ((s.dropWhile (fun c => !isDig c)).dropWhile isDig).takeWhile (fun c => c ≠ '\n'))

/-- Source VersionPart.bump: replace the first digit run of the effective
value by its integer value plus one. -/
def VersionPart.bump (p : VersionPart) : Option VersionPart :=
  match firstNumericSearch p.value.data with
  | none => none
  | some (pre, ds, suf) =>
      some ⟨some (String.mk (pre ++ (Nat.repr (digitsToNat ds + 1)).data ++ suf))⟩

/-! ### The string.Formatter embedding -/

/-- The opening brace character, kept out of character literals. -/
def lbrace : Char := Char.ofNat 123

/-- The closing brace character, kept out of character literals. -/
def rbrace : Char := Char.ofNat 125

/-- One chunk yielded by string.Formatter.parse: some literal text
followed by an optional replacement-field name (the label).  A chunk of
trailing literal text has field none, exactly like the Python tuples
whose field_name is None. -/
structure FmtChunk where
  lit : String
  field : Option String
  deriving DecidableEq, Repr

/-- The label of a replacement field: the raw field text up to a
conversion or format-spec marker. -/
def fieldLabel (inside : List Char) : String :=
  String.mk (inside.takeWhile (fun c => c ≠ '!' && c ≠ ':'))

/-- Mode of the Formatter scanner: literal text, inside a replacement
field, or just after a single opening or closing brace whose meaning the
next character decides (escape versus field start versus error). -/
inductive ScanMode where
  | lit : ScanMode
  | field : ScanMode
  | sawL : ScanMode
  | sawR : ScanMode
  deriving DecidableEq, Repr

/-- Single pass scanner behind the Formatter embedding.  In literal mode
characters accumulate into litAcc (reversed); an opening brace swings to
sawL, where a second brace is the doubled-brace escape ending the chunk
with one brace appended and anything else begins a field; a closing
brace swings to sawR, where only the doubled-brace escape is legal (a
lone closing brace is the ValueError, returned as none).  In field mode
characters accumulate into fldAcc until the closing brace; a nested
opening brace is unsupported markup and also returns none.  Every step
consumes one character. -/
def fmtScan (mode : ScanMode) (litAcc fldAcc : List Char) :
    List Char → Option (List FmtChunk)
  | [] =>
      match mode with
      | .lit => if litAcc = [] then some [] else some [⟨String.mk litAcc.reverse, none⟩]
      | _ => none
  | c :: rest =>
      match mode with
      | .lit =>
          if c = lbrace then fmtScan .sawL litAcc [] rest
          else if c = rbrace then fmtScan .sawR litAcc [] rest
          else fmtScan .lit (c :: litAcc) fldAcc rest
      | .sawL =>
          if c = lbrace then
            (fmtScan .lit [] [] rest).map
              (fun cs => ⟨String.mk (lbrace :: litAcc).reverse, none⟩ :: cs)
          else if c = rbrace then
            (fmtScan .lit [] [] rest).map
              (fun cs => ⟨String.mk litAcc.reverse, some ""⟩ :: cs)
          else fmtScan .field litAcc [c] rest
      | .sawR =>
          if c = rbrace then
            (fmtScan .lit [] [] rest).map
              (fun cs => ⟨String.mk (rbrace :: litAcc).reverse, none⟩ :: cs)
          else none
      | .field =>
          if c = rbrace then
            (fmtScan .lit [] [] rest).map
              (fun cs => ⟨String.mk litAcc.reverse, some (fieldLabel fldAcc.reverse)⟩ :: cs)
          else if c = lbrace then none
          else fmtScan .field litAcc (c :: fldAcc) rest

/-- Formatter.parse over a whole format string; none is the ValueError
of malformed markup, which no caller of the selection loop catches. -/
def fmtChunks (fmt : String) : Option (List FmtChunk) :=
  fmtScan .lit [] [] fmt.data

/-- The generator _labels_for_format: the field names of every chunk, in
order, including the none entries of literal-only chunks. -/
def labelsForFormat (fmt : String) : Option (List (Option String)) :=
  (fmtChunks fmt).map (List.map FmtChunk.field)

/-- Result of one str.format substitution attempt. -/
inductive SubstRes where
  | ok : String → SubstRes
  | missingKey : SubstRes
  | uncaught : SubstRes
  deriving DecidableEq, Repr

/-- A field name that plain keyword lookup serves: non-empty, not all
digits (a positional index), and free of attribute or item access. -/
def isSimpleName (n : String) : Bool :=
  !(n = "") && !(n.data.all isDig) && n.data.all (fun c => c ≠ '.' && c ≠ '[')

/-- str.format over parsed chunks: substitute each field left to right
from the lookup function, failing with missingKey on an absent key (the
Python KeyError) and with uncaught on fields keyword lookup cannot serve. -/
def substChunks : List FmtChunk → (String → Option String) → SubstRes
  | [], _ => .ok ""
  | ⟨lit, none⟩ :: rest, f =>
      match substChunks rest f with
      | .ok s => .ok (lit ++ s)
      | e => e
  | ⟨lit, some name⟩ :: rest, f =>
      if isSimpleName name then
        match f name with
        | none => .missingKey
        | some v =>
            match substChunks rest f with
            | .ok s => .ok (lit ++ v ++ s)
            | e => e
      else .uncaught

/-- str.format over a raw format string. -/
def substFormat (fmt : String) (f : String → Option String) : SubstRes :=
  match fmtChunks fmt with
  | none => .uncaught
  | some cs => substChunks cs f

/-! ### The regular-expression fragment -/

/-- The pattern fragment the configured parse regexes of the claims use:
literal characters, digit runs (backslash-d plus), named groups,
concatenation and greedy optional groups. -/
inductive Rx where
  | lit : Char → Rx
  | digits : Rx
  | group : String → Rx → Rx
  | seq : Rx → Rx → Rx
  | opt : Rx → Rx
  deriving DecidableEq, Repr

/-- All candidate matches of a pattern anchored at the head of the input,
in Python's backtracking priority order (greedy first).  Each candidate
is the remaining input paired with the named-group bindings made so far,
in group definition order. -/
def Rx.run : Rx → List Char → List (List Char × List (String × String))
  | .lit c, s =>
      match s with
      | [] => []
      | c2 :: rest => if c2 = c then [(rest, [])] else []
  | .digits, s =>
      let r := s.takeWhile isDig
      (List.range r.length).map (fun i => (s.drop (r.length - i), []))
  | .group n r, s =>
      (r.run s).map
        (fun p => (p.1, p.2 ++ [(n, String.mk (s.take (s.length - p.1.length)))]))
  | .seq a b, s =>
      (a.run s).flatMap (fun p => (b.run p.1).map (fun q => (q.1, p.2 ++ q.2)))
  | .opt r, s => r.run s ++ [(s, [])]

/-- The named groups of a pattern, in definition order. -/
def Rx.names : Rx → List String
  | .lit _ => []
  | .digits => []
  | .group n r => n :: r.names
  | .seq a b => a.names ++ b.names
  | .opt r => r.names

/-- re.search: try the pattern at each successive start position and
return the bindings of the first position that matches, taking the first
candidate in backtracking order there. -/
def rxSearchList (r : Rx) : List Char → Option (List (String × String))
  | [] =>
      match r.run [] with
      | (_, b) :: _ => some b
      | [] => none
  | c :: t =>
      match r.run (c :: t) with
      | (_, b) :: _ => some b
      | [] => rxSearchList r t

/-- First-match lookup in an association list, the dict read values[k]. -/
def lookupA {α : Type} : List (String × α) → String → Option α
  | [], _ => none
  | q :: t, k => if q.1 = k then some q.2 else lookupA t k

/-- Write through an association list at one key, the dict write. -/
def updateA (l : List (String × VersionPart)) (k : String) (p : VersionPart) :
    List (String × VersionPart) :=
  l.map (fun q => if q.1 = k then (q.1, p) else q)

/-! ### The Version class -/

/-- Source class Version: the compiled parse pattern, the ordered
serialization formats, the context mapping and the parsed component
mapping that the parse method populates. -/
structure Version where
  parse_regex : Rx
  serialize_formats : List String
  context : List (String × String)
  _parsed : List (String × VersionPart)
  deriving DecidableEq, Repr

/-- Constructor wrapper: a Version as built by Version.__init__, before
any parse call. -/
def mkVersion (rx : Rx) (fmts : List String) (ctx : List (String × String)) : Version :=
  ⟨rx, fmts, ctx, []⟩

/-- Source Version.parse: search the pattern in the string; with no
match leave the component mapping empty; on a match store one
VersionPart per named group of the pattern, in definition order, with
the binding of the group or None when the group did not participate —
exactly what iterating match.groupdict() produces. -/
def Version.parse (v : Version) (s : String) : Version :=
  match rxSearchList v.parse_regex s.data with
  | none => { v with _parsed := [] }
  | some binds =>
      { v with _parsed := v.parse_regex.names.map (fun n => (n, ⟨lookupA binds n⟩)) }

/-- The dict lookup into values = context.copy() updated with _parsed:
a parsed component shadows a context entry of the same name, and a
VersionPart substitutes as its effective value (its format method). -/
def Version.resolve (v : Version) (k : String) : Option String :=
  match lookupA v._parsed k with
  | some p => some p.value
  | none => lookupA v.context k

/-- The set keys_needing_representation, as the source builds it: scan
the parsed components in order and keep a name when its part is not
optional, or when no non-optional part has been seen yet. -/
def keysNeedingRepresentation : List (String × VersionPart) → Bool → List String
  | [], _ => []
  | (k, p) :: rest, found =>
      if !p.is_optional then k :: keysNeedingRepresentation rest true
      else if !found then k :: keysNeedingRepresentation rest found
      else keysNeedingRepresentation rest found

/-- The Python proper-superset test keys > required, where required may
hold the None labels of literal-only chunks; None never equals a key. -/
def isProperSuperset (keys : List String) (required : List (Option String)) : Bool :=
  required.all (fun l =>
      match l with
      | none => false
      | some s => keys.contains s) &&
  keys.any (fun k => !required.contains (some k))

/-- Errors of the serialization methods.  missingKey is the KeyError the
selection loop catches, incomplete the
IncompleteVersionRepresenationException, noSuitableFormat the final
KeyError of _choose_serialize_format, and uncaught any exception no
caller handles. -/
inductive SerErr where
  | missingKey : SerErr
  | incomplete : SerErr
  | uncaught : SerErr
  | noSuitableFormat : SerErr
  deriving DecidableEq, Repr

deriving instance DecidableEq for Except

/-- Source Version._serialize: substitute the format from the merged
values; then, when asked to, fail when the keys needing representation
form a proper superset of the labels of the format. -/
def Version._serialize (v : Version) (fmt : String) (raise_if_incomplete : Bool) :
    Except SerErr String :=
  match fmtChunks fmt with
  | none => .error .uncaught
  | some chunks =>
      match substChunks chunks v.resolve with
      | .uncaught => .error .uncaught
      | .missingKey => .error .missingKey
      | .ok s =>
          if raise_if_incomplete &&
              isProperSuperset (keysNeedingRepresentation v._parsed false)
                (chunks.map FmtChunk.field) then
            .error .incomplete
          else .ok s

/-- Python falsiness of the chosen variable: None and the empty string. -/
def pyFalsy : Option String → Bool
  | none => true
  | some s => s = ""

/-- The loop body of _choose_serialize_format: a format that serializes
completely replaces the chosen one; an incomplete one replaces it only
when the chosen variable is still falsy; a missing key skips; any other
exception propagates. -/
def chooseAux (v : Version) : List String → Option String → Except SerErr (Option String)
  | [], chosen => .ok chosen
  | f :: rest, chosen =>
      match v._serialize f true with
      | .ok _ => chooseAux v rest (some f)
      | .error .incomplete => chooseAux v rest (if pyFalsy chosen then some f else chosen)
      | .error .missingKey => chooseAux v rest chosen
      | .error e => .error e

/-- Source Version._choose_serialize_format. -/
def Version._choose_serialize_format (v : Version) : Except SerErr String :=
  match chooseAux v v.serialize_formats none with
  | .error e => .error e
  | .ok chosen => if pyFalsy chosen then .error .noSuitableFormat else .ok (chosen.getD "")

/-- Source Version.serialize: serialize with the chosen format, this
time without the completeness check. -/
def Version.serialize (v : Version) : Except SerErr String :=
  match v._choose_serialize_format with
  | .error e => .error e
  | .ok f => v._serialize f false

/-- State-passing form of serialize.  The bodies of _serialize and
_choose_serialize_format assign no attribute of self: _serialize writes
only the local dict values, built from context.copy() before the update
with _parsed.  The transcription therefore returns the receiver as the
post state. -/
def Version.serializeS (v : Version) : Except SerErr String × Version :=
  (v.serialize, v)

/-- The loop of Version.bump over the labels of the first serialization
format: skip labels absent from the parsed mapping (None labels always
are), bump the target part when its label arrives, and zero every
parsed label walked after it.  A failing part bump is the uncaught
AttributeError, returned as none. -/
def bumpWalk (parsed : List (String × VersionPart)) (part_name : String) :
    List (Option String) → Bool → Option (List (String × VersionPart))
  | [], _ => some parsed
  | none :: rest, bumped => bumpWalk parsed part_name rest bumped
  | some l :: rest, bumped =>
      match lookupA parsed l with
      | none => bumpWalk parsed part_name rest bumped
      | some p =>
          if l = part_name then
            match p.bump with
            | none => none
            | some p2 => bumpWalk (updateA parsed part_name p2) part_name rest true
          else if bumped then
            bumpWalk (updateA parsed l p.zero) part_name rest bumped
          else bumpWalk parsed part_name rest bumped

/-- Source Version.bump: walk the labels of the first serialization
format.  An empty format list (the subscript of serialize_formats[0]
fails) or malformed first format (Formatter.parse fails during the walk)
is an uncaught error, returned as none. -/
def Version.bump (v : Version) (part_name : String) : Option Version :=
  match v.serialize_formats with
  | [] => none
  | f :: _ =>
      match fmtChunks f with
      | none => none
      | some chunks =>
          (bumpWalk v._parsed part_name (chunks.map FmtChunk.field) false).map
            (fun p => { v with _parsed := p })

/-- The default parse pattern: three named groups of digit runs named
major, minor and patch, separated by literal dots. -/
def defaultRx : Rx :=
  .seq (.group "major" .digits)
    (.seq (.lit '.')
      (.seq (.group "minor" .digits)
        (.seq (.lit '.') (.group "patch" .digits))))

example : fmtChunks "{major}.{minor}.{patch}" =
    some [⟨"", some "major"⟩, ⟨".", some "minor"⟩, ⟨".", some "patch"⟩] := by decide

example :
    ((mkVersion defaultRx ["{major}.{minor}.{patch}"] []).parse "1.4.9")._parsed =
      [("major", ⟨some "1"⟩), ("minor", ⟨some "4"⟩), ("patch", ⟨some "9"⟩)] := by decide

example :
    ((mkVersion defaultRx ["{major}.{minor}.{patch}"] []).parse "1.4.9").serialize =
      .ok "1.4.9" := by decide

example :
    ((mkVersion defaultRx ["{major}.{minor}.{patch}"] []).parse "1.4.9").bump "minor" =
      some ((mkVersion defaultRx ["{major}.{minor}.{patch}"] []).parse "1.4.9"
        |> (fun w => { w with _parsed :=
          [("major", ⟨some "1"⟩), ("minor", ⟨some "5"⟩), ("patch", ⟨some "0"⟩)] })) := by
  decide

/-! ### List scanning helpers -/

theorem takeWhile_append_all {p : Char → Bool} :
    ∀ A B : List Char, (∀ c ∈ A, p c = true) → (A ++ B).takeWhile p = A ++ B.takeWhile p := by
  intro A B h
  induction A with
  | nil => simp
  | cons a t ih =>
      have ha : p a = true := h a (by simp)
      have ht : ∀ c ∈ t, p c = true := fun c hc => h c (by simp [hc])
      simp [List.takeWhile_cons, ha, ih ht]

theorem dropWhile_append_all {p : Char → Bool} :
    ∀ A B : List Char, (∀ c ∈ A, p c = true) → (A ++ B).dropWhile p = B.dropWhile p := by
  intro A B h
  induction A with
  | nil => simp
  | cons a t ih =>
      have ha : p a = true := h a (by simp)
      have ht : ∀ c ∈ t, p c = true := fun c hc => h c (by simp [hc])
      simp [List.dropWhile_cons, ha, ih ht]

theorem takeWhile_head_false {p : Char → Bool} {B : List Char}
    (h : ∀ c, B.head? = some c → p c = false) : B.takeWhile p = [] := by
  cases B with
  | nil => rfl
  | cons b t => simp [List.takeWhile_cons, h b rfl]

theorem dropWhile_head_false {p : Char → Bool} {B : List Char}
    (h : ∀ c, B.head? = some c → p c = false) : B.dropWhile p = B := by
  cases B with
  | nil => rfl
  | cons b t => simp [List.dropWhile_cons, h b rfl]

theorem takeWhile_all_self {p : Char → Bool} :
    ∀ B : List Char, (∀ c ∈ B, p c = true) → B.takeWhile p = B := by
  intro B h
  induction B with
  | nil => rfl
  | cons b t ih =>
      have hb : p b = true := h b (by simp)
      have ht : ∀ c ∈ t, p c = true := fun c hc => h c (by simp [hc])
      simp [List.takeWhile_cons, hb, ih ht]

theorem dropWhile_all_nil {p : Char → Bool} :
    ∀ B : List Char, (∀ c ∈ B, p c = true) → B.dropWhile p = [] := by
  intro B h
  induction B with
  | nil => rfl
  | cons b t ih =>
      have hb : p b = true := h b (by simp)
      have ht : ∀ c ∈ t, p c = true := fun c hc => h c (by simp [hc])
      simp [List.dropWhile_cons, hb, ih ht]

/-! ### Claims about VersionPart (C7 and C5) -/

/-- C7. For every VersionPart the effective value is never the empty
string and is "0" exactly on the optional parts; the part built from the
empty stored value or from None has effective value "0" and is optional,
while the part with value "1" is not. -/
theorem c7_value_never_empty_optional_iff :
    (∀ p : VersionPart, p.value ≠ "" ∧ (p.is_optional = true ↔ p.value = "0"))
    ∧ (VersionPart.mk (some "")).value = "0"
    ∧ (VersionPart.mk none).value = "0"
    ∧ (VersionPart.mk (some "")).is_optional = true
    ∧ (VersionPart.mk (some "1")).is_optional = false := by
  refine ⟨fun p => ⟨?_, ?_⟩, by decide, by decide, by decide, by decide⟩
  · cases h : p._value with
    | none => simp [VersionPart.value, h]
    | some s =>
        by_cases hs : s = "" <;> simp [VersionPart.value, h, hs]
  · simp [VersionPart.is_optional]

/-- C7 witness: the invariants at the concrete parts "7", "" and "1". -/
theorem c7_witness :
    (VersionPart.mk (some "7")).value ≠ ""
    ∧ ((VersionPart.mk (some "7")).is_optional = true ↔ (VersionPart.mk (some "7")).value = "0")
    ∧ (VersionPart.mk (some "")).value = "0"
    ∧ (VersionPart.mk (some "1")).is_optional = false :=
  ⟨(c7_value_never_empty_optional_iff.1 ⟨some "7"⟩).1,
   (c7_value_never_empty_optional_iff.1 ⟨some "7"⟩).2,
   c7_value_never_empty_optional_iff.2.1,
   c7_value_never_empty_optional_iff.2.2.2.2⟩

/-- C5 counterexample.  The claim promises a byte-identical suffix after
the first digit run; on the stored value holding a newline after its
digit run the code instead truncates the suffix at the newline, because
the dot-star group of FIRST_NUMERIC does not cross a newline: bumping
"1\nx" yields "2", not the promised "2\nx". -/
theorem c5_counterexample :
    (VersionPart.mk (some "1\nx")).bump = some ⟨some "2"⟩ ∧ "2" ≠ "2\nx" := by
  exact ⟨by decide, by decide⟩

/-- C5 as amended, both halves.  First: split the effective value as a
digit-free prefix, a non-empty maximal digit run and the remainder;
then bump succeeds, replaces exactly the digit run by its integer value
plus one, keeps the prefix byte-identical, and keeps the remainder only
up to its first newline — everything from the first newline on is
dropped, because the dot-star group of FIRST_NUMERIC stops there.
Second: when the effective value holds no digit at all, bump fails (the
NoneType search result the spec calls PatternMismatch). -/
theorem c5_amended_bump_first_digit_run :
    (∀ pre ds suf : List Char,
      (∀ c ∈ pre, isDig c = false) → ds ≠ [] → (∀ c ∈ ds, isDig c = true) →
      (∀ c, suf.head? = some c → isDig c = false) →
      (VersionPart.mk (some (String.mk (pre ++ ds ++ suf)))).bump =
        some ⟨some (String.mk (pre ++ (Nat.repr (digitsToNat ds + 1)).data ++
          suf.takeWhile (fun c => c ≠ '\n')))⟩)
    ∧ (∀ p : VersionPart, (∀ c ∈ p.value.data, isDig c = false) → p.bump = none) := by
  constructor
  · intro pre ds suf hpre hds hdig hsuf
    obtain ⟨d, dt, rfl⟩ : ∃ d dt, ds = d :: dt := by
      cases ds with
      | nil => exact absurd rfl hds
      | cons d dt => exact ⟨d, dt, rfl⟩
    have hne : String.mk (pre ++ (d :: dt) ++ suf) ≠ "" := by
      intro h
      have h2 := congrArg String.data h
      simp at h2
    have hval : (VersionPart.mk (some (String.mk (pre ++ (d :: dt) ++ suf)))).value =
        String.mk (pre ++ (d :: dt) ++ suf) := by
      show (if String.mk (pre ++ (d :: dt) ++ suf) = "" then ("0" : String)
          else String.mk (pre ++ (d :: dt) ++ suf)) = String.mk (pre ++ (d :: dt) ++ suf)
      exact if_neg hne
    have hpre2 : ∀ c ∈ pre, (!isDig c) = true := by
      intro c hc; simp [hpre c hc]
    have hd : isDig d = true := hdig d (by simp)
    have assoc : pre ++ (d :: dt) ++ suf = pre ++ ((d :: dt) ++ suf) := by
      simp [List.append_assoc]
    have htake1 : (pre ++ ((d :: dt) ++ suf)).takeWhile (fun c => !isDig c) = pre := by
      rw [takeWhile_append_all _ _ hpre2, takeWhile_head_false]
      · simp
      · intro c hc
        simp at hc
        subst hc
        simp [hd]
    have hdrop1 : (pre ++ ((d :: dt) ++ suf)).dropWhile (fun c => !isDig c) =
        (d :: dt) ++ suf := by
      rw [dropWhile_append_all _ _ hpre2, dropWhile_head_false]
      intro c hc
      simp at hc
      subst hc
      simp [hd]
    have htake2 : ((d :: dt) ++ suf).takeWhile isDig = d :: dt := by
      rw [takeWhile_append_all _ _ hdig, takeWhile_head_false hsuf, List.append_nil]
    have hdrop2 : ((d :: dt) ++ suf).dropWhile isDig = suf := by
      rw [dropWhile_append_all _ _ hdig, dropWhile_head_false]
      intro c hc
      simp [hsuf c hc]
    have hfns : firstNumericSearch (pre ++ (d :: dt) ++ suf) =
        some (pre, d :: dt, suf.takeWhile (fun c => c ≠ '\n')) := by
      rw [assoc]
      unfold firstNumericSearch
      rw [hdrop1, htake2, hdrop2, htake1]
      simp
    have hdata : (VersionPart.mk (some (String.mk (pre ++ (d :: dt) ++ suf)))).value.data =
        pre ++ (d :: dt) ++ suf := by
      rw [hval]
    unfold VersionPart.bump
    rw [hdata, hfns]
  · intro p h
    have hd0 : p.value.data.dropWhile (fun c => !isDig c) = [] := by
      apply dropWhile_all_nil
      intro c hc
      simp [h c hc]
    have hfn : firstNumericSearch p.value.data = none := by
      unfold firstNumericSearch
      rw [hd0]
      rfl
    unfold VersionPart.bump
    rw [hfn]

/-! ### Association list and bump-walk lemmas -/

theorem lookupA_some_mem {α : Type} {l : List (String × α)} {k : String} {a : α}
    (h : lookupA l k = some a) : k ∈ l.map Prod.fst := by
  induction l with
  | nil => simp [lookupA] at h
  | cons q t ih =>
      by_cases hq : q.1 = k
      · simp [hq]
      · simp [lookupA, hq] at h
        simp [ih h]

theorem lookupA_none_of_not_mem {α : Type} {l : List (String × α)} {k : String}
    (h : k ∉ l.map Prod.fst) : lookupA l k = none := by
  induction l with
  | nil => rfl
  | cons q t ih =>
      have h1 : ¬q.1 = k := fun e => h (by simp [e])
      have h2 : k ∉ List.map Prod.fst t := fun m => h (by simp [m])
      simp [lookupA, h1, ih h2]

theorem lookupA_none_key_ne {α : Type} {l : List (String × α)} {k : String}
    (h : lookupA l k = none) : ∀ q ∈ l, q.1 ≠ k := by
  induction l with
  | nil => simp
  | cons q t ih =>
      intro r hr
      by_cases hq : q.1 = k
      · simp [lookupA, hq] at h
      · simp [lookupA, hq] at h
        rcases List.mem_cons.mp hr with rfl | hr2
        · exact hq
        · exact ih h r hr2

theorem updateA_keys (l : List (String × VersionPart)) (k : String) (p : VersionPart) :
    (updateA l k p).map Prod.fst = l.map Prod.fst := by
  unfold updateA
  rw [List.map_map]
  apply List.map_congr_left
  intro q _
  by_cases h : q.1 = k <;> simp [h]

/-- Walking labels with the flag still false and the target label never
seen changes nothing: every visited label is skipped. -/
theorem bumpWalk_no_target (parsed : List (String × VersionPart)) (part : String) :
    ∀ labels : List (Option String), some part ∉ labels →
      bumpWalk parsed part labels false = some parsed := by
  intro labels h
  induction labels with
  | nil => rfl
  | cons a rest ih =>
      cases a with
      | none =>
          simp at h
          exact ih h
      | some l =>
          simp at h
          have hl : ¬(l = part) := fun e => h.1 e.symm
          cases hlk : lookupA parsed l with
          | none => rw [bumpWalk, hlk]; exact ih h.2
          | some p =>
              rw [bumpWalk, hlk]
              simp only [if_neg hl, Bool.false_eq_true, if_false]
              exact ih h.2

/-- Walking labels with a target absent from the parsed mapping changes
nothing: the target branch is unreachable and the flag stays false. -/
theorem bumpWalk_part_absent (parsed : List (String × VersionPart)) (part : String)
    (habs : part ∉ parsed.map Prod.fst) :
    ∀ labels : List (Option String), bumpWalk parsed part labels false = some parsed := by
  intro labels
  induction labels with
  | nil => rfl
  | cons a rest ih =>
      cases a with
      | none => exact ih
      | some l =>
          cases hlk : lookupA parsed l with
          | none => rw [bumpWalk, hlk]; exact ih
          | some p =>
              have hl : ¬(l = part) := by
                intro e
                exact habs (e ▸ lookupA_some_mem hlk)
              rw [bumpWalk, hlk]
              simp only [if_neg hl, Bool.false_eq_true, if_false]
              exact ih

/-- Once the flag is true and the target label does not reappear, the
walk zeroes exactly the parsed entries whose key occurs among the
remaining labels. -/
theorem bumpWalk_zero_phase (part : String) :
    ∀ (labels : List (Option String)) (parsed : List (String × VersionPart)),
      some part ∉ labels →
      bumpWalk parsed part labels true =
        some (parsed.map (fun q =>
          if some q.1 ∈ labels then (q.1, (⟨some "0"⟩ : VersionPart)) else q)) := by
  intro labels
  induction labels with
  | nil =>
      intro parsed _
      simp [bumpWalk]
  | cons a rest ih =>
      intro parsed h
      cases a with
      | none =>
          simp at h
          rw [bumpWalk, ih parsed h]
          congr 1
          apply List.map_congr_left
          intro q _
          simp
      | some l =>
          simp at h
          have hl : ¬(l = part) := fun e => h.1 e.symm
          cases hlk : lookupA parsed l with
          | none =>
              rw [bumpWalk, hlk]
              simp only [ih parsed h.2]
              congr 1
              apply List.map_congr_left
              intro q hq
              have hqne : q.1 ≠ l := lookupA_none_key_ne hlk q hq
              by_cases hm : some q.1 ∈ rest <;> simp [hqne, hm]
          | some p =>
              rw [bumpWalk, hlk]
              simp only [if_neg hl, if_true]
              rw [ih (updateA parsed l p.zero) h.2]
              congr 1
              unfold updateA
              rw [List.map_map]
              apply List.map_congr_left
              intro q _
              by_cases hql : q.1 = l <;> by_cases hqr : some q.1 ∈ rest <;>
                simp [Function.comp, hql, hqr, VersionPart.zero]

/-- Labels before the first occurrence of the target are all skipped. -/
theorem bumpWalk_skip_front (parsed : List (String × VersionPart)) (part : String)
    (post : List (Option String)) :
    ∀ pre : List (Option String), some part ∉ pre →
      bumpWalk parsed part (pre ++ post) false = bumpWalk parsed part post false := by
  intro pre h
  induction pre with
  | nil => rfl
  | cons a rest ih =>
      cases a with
      | none =>
          simp at h
          rw [List.cons_append, bumpWalk]
          exact ih h
      | some l =>
          simp at h
          have hl : ¬(l = part) := fun e => h.1 e.symm
          cases hlk : lookupA parsed l with
          | none => rw [List.cons_append, bumpWalk, hlk]; exact ih h.2
          | some p =>
              rw [List.cons_append, bumpWalk, hlk]
              simp only [if_neg hl, Bool.false_eq_true, if_false]
              exact ih h.2

/-- The full cascade on the label list split at the first occurrence of
the target: the target entry is bumped, entries whose key recurs among
the later labels are zeroed, everything else is untouched. -/
theorem bumpWalk_bump_cascade (parsed : List (String × VersionPart)) (part : String)
    (pre post : List (Option String)) (p p2 : VersionPart)
    (hpre : some part ∉ pre) (hpost : some part ∉ post)
    (hlk : lookupA parsed part = some p) (hb : p.bump = some p2) :
    bumpWalk parsed part (pre ++ some part :: post) false =
      some (parsed.map (fun q =>
        if q.1 = part then (q.1, p2)
        else if some q.1 ∈ post then (q.1, (⟨some "0"⟩ : VersionPart))
        else q)) := by
  rw [bumpWalk_skip_front parsed part _ pre hpre]
  rw [bumpWalk, hlk]
  simp only [eq_self_iff_true, if_true, hb]
  rw [bumpWalk_zero_phase part post (updateA parsed part p2) hpost]
  congr 1
  unfold updateA
  rw [List.map_map]
  apply List.map_congr_left
  intro q _
  by_cases hqp : q.1 = part
  · simp [Function.comp, hqp, hpost]
  · by_cases hqr : some q.1 ∈ post <;> simp [Function.comp, hqp, hqr]

/-- Bridge from the bump method to the walk over the labels of the first
serialization format. -/
theorem Version_bump_eq (v : Version) (part f : String) (fs : List String)
    (chunks : List FmtChunk)
    (hf : v.serialize_formats = f :: fs) (hc : fmtChunks f = some chunks) :
    v.bump part = (bumpWalk v._parsed part (chunks.map FmtChunk.field) false).map
      (fun p => { v with _parsed := p }) := by
  obtain ⟨rx, sf, ctx, parsed⟩ := v
  replace hf : sf = f :: fs := hf
  subst hf
  show (match fmtChunks f with
    | none => none
    | some chunks =>
        (bumpWalk parsed part (chunks.map FmtChunk.field) false).map
          (fun p => Version.mk rx (f :: fs) ctx p)) = _
  rw [hc]

/-- Bridge from the parse method to the groupdict construction, in the
matching case. -/
theorem Version_parse_eq (v : Version) (s : String) (binds : List (String × String))
    (hm : rxSearchList v.parse_regex s.data = some binds) :
    (v.parse s)._parsed =
      v.parse_regex.names.map (fun n => (n, (⟨lookupA binds n⟩ : VersionPart))) := by
  unfold Version.parse
  rw [hm]

theorem lookupA_map_graph {α : Type} (g : String → α) :
    ∀ (names : List String) (n : String), n ∈ names →
      lookupA (names.map (fun m => (m, g m))) n = some (g n) := by
  intro names
  induction names with
  | nil => simp
  | cons m t ih =>
      intro n hn
      by_cases hmn : m = n
      · subst hmn
        simp [lookupA]
      · have hnt : n ∈ t := by
          rcases List.mem_cons.mp hn with h | h
          · exact absurd h.symm hmn
          · exact h
        simp [lookupA, hmn, ih n hnt]

/-! ### Claims about bump on the version model (C3, C6, C10) -/

/-- C3 counterexample.  The claim walks component names in the order of
their first appearance in the first format, so it predicts one bump of
the target; the code walks every occurrence of a label, so with the
first format repeating the target label the target is bumped once per
occurrence.  On parsed minor=1, patch=3 and first format
"(minor).(patch).(minor)" the code yields minor=3 (two bumps with a
patch reset in between) where the claim predicts minor=2. -/
theorem c3_counterexample :
    ((mkVersion (.seq (.group "minor" .digits) (.seq (.lit '.') (.group "patch" .digits)))
        ["{minor}.{patch}.{minor}"] []).parse "1.3").bump "minor" =
      some (Version.mk
        (.seq (.group "minor" .digits) (.seq (.lit '.') (.group "patch" .digits)))
        ["{minor}.{patch}.{minor}"] []
        [("minor", ⟨some "3"⟩), ("patch", ⟨some "0"⟩)])
    ∧ (VersionPart.mk (some "1")).bump = some ⟨some "2"⟩
    ∧ (VersionPart.mk (some "3")) ≠ (VersionPart.mk (some "2")) := by
  exact ⟨by decide, by decide, by decide⟩

/-- C3 as amended.  Provided each hypothesis of the cascade holds — the
format list is non-empty, its first format parses into chunks, the
target label occurs exactly once among the labels (the split with the
target absent from both sides), the target is parsed and its part bump
succeeds — bump(part) bumps the target component, zeroes every parsed
component whose label occurs after the target, and leaves every other
component untouched. -/
theorem c3_amended_bump_cascade (v : Version) (part f : String) (fs : List String)
    (chunks : List FmtChunk) (pre post : List (Option String)) (p p2 : VersionPart)
    (hf : v.serialize_formats = f :: fs) (hc : fmtChunks f = some chunks)
    (hsplit : chunks.map FmtChunk.field = pre ++ some part :: post)
    (hpre : some part ∉ pre) (hpost : some part ∉ post)
    (hlk : lookupA v._parsed part = some p) (hb : p.bump = some p2) :
    v.bump part = some { v with _parsed := v._parsed.map (fun q =>
      if q.1 = part then (q.1, p2)
      else if some q.1 ∈ post then (q.1, (⟨some "0"⟩ : VersionPart))
      else q) } := by
  rw [Version_bump_eq v part f fs chunks hf hc, hsplit,
    bumpWalk_bump_cascade v._parsed part pre post p p2 hpre hpost hlk hb]
  rfl

/-- C3 witness: bumping minor on parsed major=1, minor=4, patch=9 with
the default pattern and format yields major=1, minor=5, patch=0. -/
theorem c3_amended_witness :
    ((mkVersion defaultRx ["{major}.{minor}.{patch}"] []).parse "1.4.9").bump "minor" =
      some { (mkVersion defaultRx ["{major}.{minor}.{patch}"] []).parse "1.4.9" with
        _parsed := [("major", ⟨some "1"⟩), ("minor", ⟨some "5"⟩), ("patch", ⟨some "0"⟩)] } := by
  have h := c3_amended_bump_cascade
    ((mkVersion defaultRx ["{major}.{minor}.{patch}"] []).parse "1.4.9")
    "minor" "{major}.{minor}.{patch}" []
    [⟨"", some "major"⟩, ⟨".", some "minor"⟩, ⟨".", some "patch"⟩]
    [some "major"] [some "patch"] ⟨some "4"⟩ ⟨some "5"⟩
    (by decide) (by decide) (by decide) (by decide) (by decide) (by decide) (by decide)
  exact h.trans (by decide)

/-- C6.  When the target name is absent from the parsed mapping — in
particular when a failed parse left it empty — bump changes nothing and
raises nothing, whatever the labels of the (well-formed, non-empty)
first serialization format are. -/
theorem c6_bump_absent_is_noop (v : Version) (part f : String) (fs : List String)
    (chunks : List FmtChunk)
    (hf : v.serialize_formats = f :: fs) (hc : fmtChunks f = some chunks)
    (habs : part ∉ v._parsed.map Prod.fst) :
    v.bump part = some v := by
  rw [Version_bump_eq v part f fs chunks hf hc, bumpWalk_part_absent v._parsed part habs]
  rfl

/-- C6 witness: after parsing a non-matching string the mapping is
empty, bump("minor") returns the state unchanged, and serialize then
fails with NoSuitableFormat. -/
theorem c6_witness :
    ((mkVersion defaultRx ["{major}.{minor}.{patch}"] []).parse "nope").bump "minor" =
      some ((mkVersion defaultRx ["{major}.{minor}.{patch}"] []).parse "nope")
    ∧ ((mkVersion defaultRx ["{major}.{minor}.{patch}"] []).parse "nope")._parsed = []
    ∧ ((mkVersion defaultRx ["{major}.{minor}.{patch}"] []).parse "nope").serialize =
        .error .noSuitableFormat := by
  refine ⟨?_, by decide, by decide⟩
  exact c6_bump_absent_is_noop _ "minor" "{major}.{minor}.{patch}" []
    [⟨"", some "major"⟩, ⟨".", some "minor"⟩, ⟨".", some "patch"⟩]
    (by decide) (by decide) (by decide)

/-- C10.  When the target name never occurs among the labels of the
first serialization format, bump changes nothing and raises nothing,
even when the target is present in the parsed mapping: the walk only
visits labels drawn from that format. -/
theorem c10_bump_label_not_in_first_format_is_noop (v : Version) (part f : String)
    (fs : List String) (chunks : List FmtChunk)
    (hf : v.serialize_formats = f :: fs) (hc : fmtChunks f = some chunks)
    (hnot : some part ∉ chunks.map FmtChunk.field) :
    v.bump part = some v := by
  rw [Version_bump_eq v part f fs chunks hf hc,
    bumpWalk_no_target v._parsed part (chunks.map FmtChunk.field) hnot]
  rfl

/-- C10 witness: patch is parsed from "1.4.9" but the first format only
names major and minor, so bump("patch") is an unchanged-state no-op. -/
theorem c10_witness :
    ((mkVersion defaultRx ["{major}.{minor}"] []).parse "1.4.9").bump "patch" =
      some ((mkVersion defaultRx ["{major}.{minor}"] []).parse "1.4.9")
    ∧ "patch" ∈ ((mkVersion defaultRx ["{major}.{minor}"] []).parse "1.4.9")._parsed.map
        Prod.fst := by
  refine ⟨?_, by decide⟩
  exact c10_bump_label_not_in_first_format_is_noop _ "patch" "{major}.{minor}" []
    [⟨"", some "major"⟩, ⟨".", some "minor"⟩] (by decide) (by decide) (by decide)

/-! ### Claims about parse (C4) -/

/-- C4 counterexample.  With the pattern holding an optional minor
group, parsing "1" matches with the minor group not participating; the
claim says minor is then absent from the component mapping, but
groupdict lists every named group, so the code creates a minor
component with value None. -/
theorem c4_counterexample :
    ((mkVersion (.seq (.group "major" .digits) (.opt (.seq (.lit '.') (.group "minor" .digits))))
        ["{major}"] []).parse "1")._parsed = [("major", ⟨some "1"⟩), ("minor", ⟨none⟩)]
    ∧ "minor" ∈ ((mkVersion
        (.seq (.group "major" .digits) (.opt (.seq (.lit '.') (.group "minor" .digits))))
        ["{major}"] []).parse "1")._parsed.map Prod.fst := by
  exact ⟨by decide, by decide⟩

/-- C4 as amended.  On a successful search, parse creates one component
per named group of the pattern — participating or not — keyed by group
name in definition order; a group that did not participate is present
with stored value None (so its effective value is "0"), not absent. -/
theorem c4_amended_parse_creates_all_groups (v : Version) (s : String)
    (binds : List (String × String))
    (hm : rxSearchList v.parse_regex s.data = some binds) :
    ((v.parse s)._parsed.map Prod.fst = v.parse_regex.names)
    ∧ (∀ n ∈ v.parse_regex.names, lookupA binds n = none →
        lookupA (v.parse s)._parsed n = some ⟨none⟩) := by
  constructor
  · rw [Version_parse_eq v s binds hm, List.map_map]
    rw [show (Prod.fst ∘ fun n => (n, (⟨lookupA binds n⟩ : VersionPart))) = fun n => n from rfl]
    simp
  · intro n hn hnone
    rw [Version_parse_eq v s binds hm,
      lookupA_map_graph (fun m => (⟨lookupA binds m⟩ : VersionPart)) _ n hn, hnone]

/-- C4 witness: the optional-minor pattern on "1" binds only major, and
the amended claim places minor in the mapping with value None. -/
theorem c4_amended_witness :
    ((mkVersion (.seq (.group "major" .digits) (.opt (.seq (.lit '.') (.group "minor" .digits))))
        ["{major}"] []).parse "1")._parsed.map Prod.fst = ["major", "minor"]
    ∧ lookupA ((mkVersion
        (.seq (.group "major" .digits) (.opt (.seq (.lit '.') (.group "minor" .digits))))
        ["{major}"] []).parse "1")._parsed "minor" = some ⟨none⟩ := by
  have h := c4_amended_parse_creates_all_groups
    (mkVersion (.seq (.group "major" .digits) (.opt (.seq (.lit '.') (.group "minor" .digits))))
      ["{major}"] []) "1" [("major", "1")] (by decide)
  exact ⟨h.1, h.2 "minor" (by decide) (by decide)⟩

/-- C5 witness: both halves of the amended claim at concrete inputs —
the plain split of "v2beta", the newline truncation on "1\nx" (derived
from the general first half, not a separate computation), and the
failure on the digit-free "beta"; plus the "0" to "1" instance. -/
theorem c5_amended_witness :
    (VersionPart.mk (some "v2beta")).bump = some ⟨some "v3beta"⟩
    ∧ (VersionPart.mk (some "1\nx")).bump = some ⟨some "2"⟩
    ∧ (VersionPart.mk (some "beta")).bump = none
    ∧ (VersionPart.mk (some "0")).bump = some ⟨some "1"⟩ := by
  refine ⟨?_, ?_, ?_, by decide⟩
  · exact (c5_amended_bump_first_digit_run.1 "v".data "2".data "beta".data
      (by decide) (by decide) (by decide) (by decide)).trans (by decide)
  · exact (c5_amended_bump_first_digit_run.1 [] ['1'] "\nx".data
      (by decide) (by decide) (by decide) (by decide)).trans (by decide)
  · exact c5_amended_bump_first_digit_run.2 ⟨some "beta"⟩ (by decide)

/-! ### Frame and shadowing of serialize (C9) -/

/-- C9.  Serialization leaves the whole version state unchanged — the
method bodies assign no attribute of self, substituting from a local
dict built by copying the context and updating with the parsed
components — and in that merged lookup a parsed component shadows a
context entry of the same name, while names not parsed fall back to the
context. -/
theorem c9_serialize_frame_and_shadowing :
    (∀ v : Version, v.serializeS.2 = v)
    ∧ (∀ (v : Version) (k : String) (p : VersionPart),
        lookupA v._parsed k = some p → v.resolve k = some p.value)
    ∧ (∀ (v : Version) (k : String),
        lookupA v._parsed k = none → v.resolve k = lookupA v.context k) := by
  refine ⟨fun v => rfl, ?_, ?_⟩
  · intro v k p h
    unfold Version.resolve
    rw [h]
  · intro v k h
    unfold Version.resolve
    rw [h]

/-- C9 witness: on a state whose context and components share the name
major, serialization returns the state unchanged and resolution yields
the component value, not the context value. -/
theorem c9_witness :
    (Version.mk defaultRx ["{major}"] [("major", "9")]
        [("major", ⟨some "1"⟩)]).serializeS.2 =
      Version.mk defaultRx ["{major}"] [("major", "9")] [("major", ⟨some "1"⟩)]
    ∧ (Version.mk defaultRx ["{major}"] [("major", "9")]
        [("major", ⟨some "1"⟩)]).resolve "major" = some (VersionPart.mk (some "1")).value := by
  exact ⟨c9_serialize_frame_and_shadowing.1 _,
    c9_serialize_frame_and_shadowing.2.1 _ "major" ⟨some "1"⟩ (by decide)⟩

/-! ### The completeness judgement (C2) -/

/-- Bridge from the _serialize method to its substitution and
completeness pieces, for a well-formed format. -/
theorem Version_serialize_fmt_eq (v : Version) (fmt : String) (chunks : List FmtChunk)
    (raise : Bool) (hc : fmtChunks fmt = some chunks) :
    v._serialize fmt raise =
      match substChunks chunks v.resolve with
      | .uncaught => .error .uncaught
      | .missingKey => .error .missingKey
      | .ok s =>
          if raise && isProperSuperset (keysNeedingRepresentation v._parsed false)
              (chunks.map FmtChunk.field) then .error .incomplete
          else .ok s := by
  unfold Version._serialize
  rw [hc]

theorem keysNeeding_subset :
    ∀ (l : List (String × VersionPart)) (found : Bool) (x : String),
      x ∈ keysNeedingRepresentation l found → x ∈ l.map Prod.fst := by
  intro l
  induction l with
  | nil =>
      intro found x h
      simp [keysNeedingRepresentation] at h
  | cons q t ih =>
      intro found x h
      rw [keysNeedingRepresentation] at h
      by_cases hopt : q.2.is_optional
      · by_cases hfound : found
        · simp [hopt, hfound] at h
          simp [ih true x h]
        · simp [hopt, hfound] at h
          rcases h with h | h
          · simp [h]
          · simp [ih false x h]
      · simp [hopt] at h
        rcases h with h | h
        · simp [h]
        · simp [ih true x h]

/-- Membership of an entry key in keys_needing_representation, for the
entry at an arbitrary split position, generalized over the running
found_required flag. -/
theorem keysNeeding_mem_split (k : String) (p : VersionPart) :
    ∀ (l₁ l₂ : List (String × VersionPart)) (found : Bool),
      k ∉ l₁.map Prod.fst → k ∉ l₂.map Prod.fst →
      (k ∈ keysNeedingRepresentation (l₁ ++ (k, p) :: l₂) found ↔
        (p.is_optional = false ∨ (found = false ∧ ∀ q ∈ l₁, q.2.is_optional = true))) := by
  intro l₁
  induction l₁ with
  | nil =>
      intro l₂ found _ h2
      rw [List.nil_append, keysNeedingRepresentation]
      by_cases hopt : p.is_optional = true
      · cases found
        · simp [hopt]
        · simp only [hopt, Bool.not_true, Bool.false_eq_true, if_false]
          constructor
          · intro hmem
            exact absurd (keysNeeding_subset l₂ true k hmem) h2
          · rintro (h | h)
            · exact absurd h (by decide)
            · exact absurd h.1 (by decide)
      · have hopt2 : p.is_optional = false := by
          cases hb : p.is_optional
          · rfl
          · exact absurd hb hopt
        simp [hopt2]
  | cons q t ih =>
      intro l₂ found h1 h2
      have hqk : ¬q.1 = k := fun e => h1 (by simp [e])
      have h1t : k ∉ t.map Prod.fst := fun m => h1 (by simp [m])
      rw [List.cons_append, keysNeedingRepresentation]
      by_cases hopt : q.2.is_optional = true
      · cases found
        · simp only [hopt, Bool.not_true, Bool.false_eq_true, if_false, Bool.not_false,
            if_true]
          rw [List.mem_cons, ih l₂ false h1t h2]
          constructor
          · rintro (h | h | h)
            · exact absurd h.symm hqk
            · exact Or.inl h
            · refine Or.inr ⟨by trivial, ?_⟩
              intro r hr
              rcases List.mem_cons.mp hr with rfl | hrt
              · exact hopt
              · exact h.2 r hrt
          · rintro (h | h)
            · exact Or.inr (Or.inl h)
            · exact Or.inr (Or.inr ⟨by trivial, fun r hr => h.2 r (by simp [hr])⟩)
        · simp only [hopt, Bool.not_true, Bool.false_eq_true, if_false]
          rw [ih l₂ true h1t h2]
          constructor
          · rintro (h | h)
            · exact Or.inl h
            · exact absurd h.1 (by decide)
          · rintro (h | h)
            · exact Or.inl h
            · exact absurd h.1 (by decide)
      · have hopt2 : q.2.is_optional = false := by
          cases hb : q.2.is_optional
          · rfl
          · exact absurd hb hopt
        simp only [hopt2, Bool.not_false, if_true]
        rw [List.mem_cons, ih l₂ true h1t h2]
        constructor
        · rintro (h | h | h)
          · exact absurd h.symm hqk
          · exact Or.inl h
          · exact absurd h.1 (by decide)
        · rintro (h | h)
          · exact Or.inr (Or.inl h)
          · exact absurd (h.2 q (by simp)) (by simp [hopt2])

/-- C2 counterexample.  The claim judges a template complete exactly
when keys_needing_representation is a subset of the template labels.
On the parsed state major=1 with context label=rc1, the template that
names only label substitutes and is judged complete by the code (the
completeness branch does not raise), yet the needed key major is not
among the labels — the code tests for a proper superset, not for a
subset. -/
theorem c2_counterexample :
    ((mkVersion (.group "major" .digits) ["{major}"] [("label", "rc1")]).parse
        "1")._serialize "{label}" true = .ok "rc1"
    ∧ keysNeedingRepresentation
        ((mkVersion (.group "major" .digits) ["{major}"] [("label", "rc1")]).parse
          "1")._parsed false = ["major"]
    ∧ labelsForFormat "{label}" = some [some "label"]
    ∧ (some "major" : Option String) ∉ [(some "label" : Option String)] := by
  exact ⟨by decide, by decide, by decide, by decide⟩

/-- C2 as amended.  First, keys_needing_representation contains the key
of a parsed entry exactly when that entry is non-optional or every
entry before it is optional (the claim's construction, confirmed).
Second, for a template whose substitution succeeds, the serializer
judges it incomplete exactly when keys_needing_representation is a
strict superset of the labels parsed from the template (None labels of
literal-only chunks included) — not when it fails to be a subset of
them. -/
theorem c2_amended_completeness :
    (∀ (k : String) (p : VersionPart) (l₁ l₂ : List (String × VersionPart)),
      k ∉ l₁.map Prod.fst → k ∉ l₂.map Prod.fst →
      (k ∈ keysNeedingRepresentation (l₁ ++ (k, p) :: l₂) false ↔
        (p.is_optional = false ∨ ∀ q ∈ l₁, q.2.is_optional = true)))
    ∧ (∀ (v : Version) (fmt : String) (chunks : List FmtChunk) (s : String),
      fmtChunks fmt = some chunks → substChunks chunks v.resolve = .ok s →
      ((v._serialize fmt true = .error .incomplete ↔
        isProperSuperset (keysNeedingRepresentation v._parsed false)
          (chunks.map FmtChunk.field) = true)
      ∧ (v._serialize fmt true = .ok s ↔
        isProperSuperset (keysNeedingRepresentation v._parsed false)
          (chunks.map FmtChunk.field) = false))) := by
  constructor
  · intro k p l₁ l₂ h1 h2
    rw [keysNeeding_mem_split k p l₁ l₂ false h1 h2]
    constructor
    · rintro (h | h)
      · exact Or.inl h
      · exact Or.inr h.2
    · rintro (h | h)
      · exact Or.inl h
      · exact Or.inr ⟨rfl, h⟩
  · intro v fmt chunks s hc hs
    have he := Version_serialize_fmt_eq v fmt chunks true hc
    rw [hs] at he
    cases hX : isProperSuperset (keysNeedingRepresentation v._parsed false)
        (chunks.map FmtChunk.field)
    · rw [hX] at he
      simp at he
      constructor
      · rw [he]
        constructor
        · intro h
          cases h
        · intro h
          cases h
      · rw [he]
        constructor
        · intro _
          rfl
        · intro _
          rfl
    · rw [hX] at he
      simp at he
      constructor
      · rw [he]
        constructor
        · intro _
          rfl
        · intro _
          rfl
      · rw [he]
        constructor
        · intro h
          cases h
        · intro h
          cases h

/-- C2 witness: with major=1 and minor=2 parsed, the one-label template
naming only major substitutes but is judged incomplete (the needed keys
strictly contain its labels), and minor is a needed key by the amended
membership rule. -/
theorem c2_amended_witness :
    (Version.mk defaultRx ["{major}"] []
        [("major", ⟨some "1"⟩), ("minor", ⟨some "2"⟩)])._serialize "{major}" true =
      .error .incomplete
    ∧ "minor" ∈ keysNeedingRepresentation
        [("major", (⟨some "1"⟩ : VersionPart)), ("minor", ⟨some "2"⟩)] false := by
  constructor
  · exact ((c2_amended_completeness.2
      (Version.mk defaultRx ["{major}"] [] [("major", ⟨some "1"⟩), ("minor", ⟨some "2"⟩)])
      "{major}" [⟨"", some "major"⟩] "1" (by decide) (by decide)).1).mpr (by decide)
  · exact (c2_amended_completeness.1 "minor" ⟨some "2"⟩ [("major", ⟨some "1"⟩)] []
      (by decide) (by decide)).mpr (by decide)

/-! ### The format selection loop (C1) -/

theorem serialize_ne_noSuitable (v : Version) (fmt : String) (raise : Bool) :
    v._serialize fmt raise ≠ .error .noSuitableFormat := by
  cases hc : fmtChunks fmt with
  | none =>
      unfold Version._serialize
      rw [hc]
      intro h
      cases h
  | some chunks =>
      rw [Version_serialize_fmt_eq v fmt chunks raise hc]
      cases hs : substChunks chunks v.resolve <;> simp
      split <;> simp

theorem serialize_plain_of_raise_ok (v : Version) (fmt : String) (s : String)
    (h : v._serialize fmt true = .ok s) : v._serialize fmt false = .ok s := by
  cases hc : fmtChunks fmt with
  | none =>
      unfold Version._serialize at h ⊢
      rw [hc] at h ⊢
      cases h
  | some chunks =>
      rw [Version_serialize_fmt_eq v fmt chunks true hc] at h
      rw [Version_serialize_fmt_eq v fmt chunks false hc]
      cases hs : substChunks chunks v.resolve <;> rw [hs] at h
      · simp at h ⊢
        split at h
        · cases h
        · exact Except.ok.inj h
      · cases h
      · cases h

theorem chooseAux_all_ok (v : Version) :
    ∀ (fs : List String) (c : Option String),
      (∀ g ∈ fs, v._serialize g true ≠ .error .uncaught) →
      ∃ c2, chooseAux v fs c = .ok c2 := by
  intro fs
  induction fs with
  | nil =>
      intro c _
      exact ⟨c, rfl⟩
  | cons g t ih =>
      intro c h
      have hg := h g (by simp)
      have ht : ∀ g2 ∈ t, v._serialize g2 true ≠ .error .uncaught :=
        fun g2 hm => h g2 (by simp [hm])
      cases hs : v._serialize g true with
      | ok s =>
          rw [chooseAux, hs]
          exact ih (some g) ht
      | error e =>
          cases e with
          | incomplete =>
              rw [chooseAux, hs]
              exact ih _ ht
          | missingKey =>
              rw [chooseAux, hs]
              exact ih c ht
          | uncaught => exact absurd hs hg
          | noSuitableFormat => exact absurd hs (serialize_ne_noSuitable v g true)

theorem chooseAux_keep (v : Version) (f : String) (hf : ¬(f = "")) :
    ∀ fs : List String,
      (∀ g ∈ fs, v._serialize g true = .error .incomplete ∨
        v._serialize g true = .error .missingKey) →
      chooseAux v fs (some f) = .ok (some f) := by
  intro fs
  induction fs with
  | nil => intro _; rfl
  | cons g t ih =>
      intro h
      have ht : ∀ g2 ∈ t, v._serialize g2 true = .error .incomplete ∨
          v._serialize g2 true = .error .missingKey :=
        fun g2 hm => h g2 (by simp [hm])
      rcases h g (by simp) with hg | hg
      · rw [chooseAux, hg]
        have : pyFalsy (some f) = false := by
          simp [pyFalsy, hf]
        rw [this]
        simp only [Bool.false_eq_true, if_false]
        exact ih ht
      · rw [chooseAux, hg]
        exact ih ht

theorem chooseAux_all_missing (v : Version) :
    ∀ (fs : List String) (c : Option String),
      (∀ g ∈ fs, v._serialize g true = .error .missingKey) →
      chooseAux v fs c = .ok c := by
  intro fs
  induction fs with
  | nil => intro c _; rfl
  | cons g t ih =>
      intro c h
      rw [chooseAux, h g (by simp)]
      exact ih c (fun g2 hm => h g2 (by simp [hm]))

theorem chooseAux_append (v : Version) :
    ∀ (l₁ l₂ : List String) (c : Option String),
      chooseAux v (l₁ ++ l₂) c =
        match chooseAux v l₁ c with
        | .ok c2 => chooseAux v l₂ c2
        | .error e => .error e := by
  intro l₁
  induction l₁ with
  | nil =>
      intro l₂ c
      rfl
  | cons g t ih =>
      intro l₂ c
      rw [List.cons_append, chooseAux, chooseAux]
      cases hs : v._serialize g true with
      | ok s => exact ih l₂ (some g)
      | error e =>
          cases e with
          | incomplete => exact ih l₂ _
          | missingKey => exact ih l₂ c
          | uncaught => rfl
          | noSuitableFormat => rfl

/-- C1 counterexample.  The claim selects the last template whose
substitution succeeds.  With parsed major=1, minor=2 and the template
list [major.minor, major], the second template substitutes successfully
(to "1"), yet serialize returns "1.2" from the first: a substituting
but incomplete template never overrides an earlier complete choice. -/
theorem c1_counterexample :
    (Version.mk defaultRx ["{major}.{minor}", "{major}"] []
        [("major", ⟨some "1"⟩), ("minor", ⟨some "2"⟩)]).serialize = .ok "1.2"
    ∧ (Version.mk defaultRx ["{major}.{minor}", "{major}"] []
        [("major", ⟨some "1"⟩), ("minor", ⟨some "2"⟩)])._serialize "{major}" false = .ok "1"
    ∧ ("1.2" : String) ≠ "1" := by
  exact ⟨by decide, by decide, by decide⟩

/-- C1 as amended.  The loop evaluates every template.  The final
choice is the last template that substitutes AND passes the
completeness check (here: is not rejected as incomplete), provided it
is not the empty string; templates after it that fail with a missing
key or as incomplete neither clear nor override it, and serialize then
renders with it.  A template that substitutes but is incomplete only
fills a still-empty choice.  And when every template fails with a
missing key, serialize fails with NoSuitableFormat. -/
theorem c1_amended_selection :
    (∀ (v : Version) (l₁ l₂ : List String) (f s : String),
      v.serialize_formats = l₁ ++ f :: l₂ →
      (∀ g ∈ l₁, v._serialize g true ≠ .error .uncaught) →
      v._serialize f true = .ok s →
      ¬(f = "") →
      (∀ g ∈ l₂, v._serialize g true = .error .incomplete ∨
        v._serialize g true = .error .missingKey) →
      v._choose_serialize_format = .ok f ∧ v.serialize = .ok s)
    ∧ (∀ v : Version,
      (∀ g ∈ v.serialize_formats, v._serialize g true = .error .missingKey) →
      v.serialize = .error .noSuitableFormat) := by
  constructor
  · intro v l₁ l₂ f s hform h1 hok hne hl₂
    have hchoose : chooseAux v v.serialize_formats none = .ok (some f) := by
      rw [hform, chooseAux_append v l₁ (f :: l₂) none]
      obtain ⟨c1, hc1⟩ := chooseAux_all_ok v l₁ none h1
      rw [hc1]
      show chooseAux v (f :: l₂) c1 = .ok (some f)
      rw [chooseAux, hok]
      exact chooseAux_keep v f hne l₂ hl₂
    have hcf : v._choose_serialize_format = .ok f := by
      unfold Version._choose_serialize_format
      rw [hchoose]
      show (if pyFalsy (some f) = true then Except.error SerErr.noSuitableFormat
        else Except.ok ((some f).getD "")) = .ok f
      have hpf : pyFalsy (some f) = false := by
        simp [pyFalsy, hne]
      rw [hpf]
      simp
    refine ⟨hcf, ?_⟩
    unfold Version.serialize
    rw [hcf]
    show v._serialize f false = .ok s
    exact serialize_plain_of_raise_ok v f s hok
  · intro v hall
    have hchoose : chooseAux v v.serialize_formats none = .ok none :=
      chooseAux_all_missing v _ none hall
    have h2 : v._choose_serialize_format = .error .noSuitableFormat := by
      unfold Version._choose_serialize_format
      rw [hchoose]
      rfl
    unfold Version.serialize
    rw [h2]

/-- C1 witness: with only major parsed, the list [major-template,
x-template] chooses the first (the second has a missing key) and
renders "1"; and with the x-template alone, serialize fails with
NoSuitableFormat. -/
theorem c1_amended_witness :
    (Version.mk defaultRx ["{major}", "{x}"] []
        [("major", ⟨some "1"⟩)])._choose_serialize_format = .ok "{major}"
    ∧ (Version.mk defaultRx ["{major}", "{x}"] [] [("major", ⟨some "1"⟩)]).serialize = .ok "1"
    ∧ (Version.mk defaultRx ["{x}"] [] [("major", ⟨some "1"⟩)]).serialize =
        .error .noSuitableFormat := by
  have h1 := c1_amended_selection.1
    (Version.mk defaultRx ["{major}", "{x}"] [] [("major", ⟨some "1"⟩)])
    [] ["{x}"] "{major}" "1" (by decide) (by simp) (by decide) (by decide) (by decide)
  have h2 := c1_amended_selection.2
    (Version.mk defaultRx ["{x}"] [] [("major", ⟨some "1"⟩)]) (by decide)
  exact ⟨h1.1, h1.2, h2⟩

/-! ### Head-of-priority-list lemmas for the pattern engine (toward C8) -/

theorem string_ext {s t : String} (h : s.data = t.data) : s = t := by
  cases s
  cases t
  exact congrArg String.mk h

theorem take_consumed (A r : List Char) :
    (A ++ r).take ((A ++ r).length - r.length) = A := by
  have h : (A ++ r).length - r.length = A.length := by simp
  rw [h, List.take_left]

theorem run_lit_head (c : Char) (r : List Char) :
    ∃ t, (Rx.lit c).run (c :: r) = (r, []) :: t := by
  refine ⟨[], ?_⟩
  show (if c = c then [(r, ([] : List (String × String)))] else []) = [(r, [])]
  rw [if_pos rfl]

theorem run_digits_head (A r : List Char) (hA : A ≠ [])
    (hAd : ∀ c ∈ A, isDig c = true) (hr : ∀ c, r.head? = some c → isDig c = false) :
    ∃ t, Rx.digits.run (A ++ r) = (r, []) :: t := by
  have htw : (A ++ r).takeWhile isDig = A := by
    rw [takeWhile_append_all _ _ hAd, takeWhile_head_false hr, List.append_nil]
  obtain ⟨a, A2, rfl⟩ : ∃ a A2, A = a :: A2 := by
    cases A with
    | nil => exact absurd rfl hA
    | cons a A2 => exact ⟨a, A2, rfl⟩
  refine ⟨(List.range A2.length).map
    (fun i => (((a :: A2) ++ r).drop (A2.length - i), [])), ?_⟩
  show (List.range (((a :: A2) ++ r).takeWhile isDig).length).map
      (fun i => (((a :: A2) ++ r).drop ((((a :: A2) ++ r).takeWhile isDig).length - i), []))
    = _
  rw [htw]
  have hlen : (a :: A2).length = A2.length + 1 := by simp
  rw [hlen, List.range_succ_eq_map, List.map_cons, List.map_map]
  congr 1
  · have h0 : A2.length + 1 - 0 = (a :: A2).length := by simp
    rw [h0, List.drop_left]
  · apply List.map_congr_left
    intro i _
    have : A2.length + 1 - Nat.succ i = A2.length - i := by omega
    simp [Function.comp, this]

theorem run_group_head (n : String) (rx : Rx) (A rest : List Char)
    (b : List (String × String))
    (h : ∃ t, rx.run (A ++ rest) = (rest, b) :: t) :
    ∃ t, (Rx.group n rx).run (A ++ rest) = (rest, b ++ [(n, String.mk A)]) :: t := by
  obtain ⟨t, ht⟩ := h
  refine ⟨t.map (fun p => (p.1, p.2 ++
    [(n, String.mk ((A ++ rest).take ((A ++ rest).length - p.1.length)))])), ?_⟩
  show (rx.run (A ++ rest)).map (fun p => (p.1, p.2 ++
      [(n, String.mk ((A ++ rest).take ((A ++ rest).length - p.1.length)))])) = _
  rw [ht, List.map_cons, take_consumed]

theorem run_seq_head (ra rb : Rx) (s r1 r2 : List Char)
    (b1 b2 : List (String × String))
    (ha : ∃ t, ra.run s = (r1, b1) :: t) (hb : ∃ t, rb.run r1 = (r2, b2) :: t) :
    ∃ t, (Rx.seq ra rb).run s = (r2, b1 ++ b2) :: t := by
  obtain ⟨ta, hta⟩ := ha
  obtain ⟨tb, htb⟩ := hb
  refine ⟨tb.map (fun q => (q.1, b1 ++ q.2)) ++
    ta.flatMap (fun p => (rb.run p.1).map (fun q => (q.1, p.2 ++ q.2))), ?_⟩
  show (ra.run s).flatMap (fun p => (rb.run p.1).map (fun q => (q.1, p.2 ++ q.2))) = _
  rw [hta, List.flatMap_cons, htb, List.map_cons, List.cons_append]

theorem searchList_of_run_head {r : Rx} {s rest : List Char}
    {b : List (String × String)} {t : List (List Char × List (String × String))}
    (hne : s ≠ []) (hrun : r.run s = (rest, b) :: t) : rxSearchList r s = some b := by
  cases s with
  | nil => exact absurd rfl hne
  | cons c cs =>
      rw [rxSearchList, hrun]

theorem parse_preserves_other_fields (v : Version) (s : String) :
    (v.parse s).serialize_formats = v.serialize_formats
    ∧ (v.parse s).context = v.context
    ∧ (v.parse s).parse_regex = v.parse_regex := by
  unfold Version.parse
  cases rxSearchList v.parse_regex s.data <;> simp

/-- The first candidate of the backtracking on the default pattern over
a dotted triple of digit runs: the greedy path consumes everything and
binds the three groups to the three runs. -/
theorem run_defaultRx_head (A B C : List Char) (hA : A ≠ []) (hB : B ≠ []) (hC : C ≠ [])
    (hAd : ∀ c ∈ A, isDig c = true) (hBd : ∀ c ∈ B, isDig c = true)
    (hCd : ∀ c ∈ C, isDig c = true) :
    ∃ t, defaultRx.run (A ++ ('.' :: (B ++ ('.' :: C)))) =
      ([], [("major", String.mk A), ("minor", String.mk B),
        ("patch", String.mk C)]) :: t := by
  have hdC : ∃ t, Rx.digits.run (C ++ []) = ([], []) :: t :=
    run_digits_head C [] hC hCd (by intro c hc; simp at hc)
  have hgC : ∃ t, (Rx.group "patch" .digits).run (C ++ []) =
      ([], [("patch", String.mk C)]) :: t :=
    run_group_head "patch" .digits C [] [] hdC
  simp only [List.append_nil] at hgC
  have hLC : ∃ t, (Rx.lit '.').run ('.' :: C) = (C, []) :: t := run_lit_head '.' C
  have hseq2 : ∃ t, (Rx.seq (.lit '.') (.group "patch" .digits)).run ('.' :: C) =
      ([], [("patch", String.mk C)]) :: t :=
    run_seq_head (.lit '.') (.group "patch" .digits) ('.' :: C) C []
      [] [("patch", String.mk C)] hLC hgC
  have hdB : ∃ t, Rx.digits.run (B ++ ('.' :: C)) = (('.' :: C), []) :: t :=
    run_digits_head B ('.' :: C) hB hBd
      (by intro c hc; simp at hc; subst hc; decide)
  have hgB : ∃ t, (Rx.group "minor" .digits).run (B ++ ('.' :: C)) =
      (('.' :: C), [("minor", String.mk B)]) :: t :=
    run_group_head "minor" .digits B ('.' :: C) [] hdB
  have hseq3 : ∃ t, (Rx.seq (.group "minor" .digits)
      (Rx.seq (.lit '.') (.group "patch" .digits))).run (B ++ ('.' :: C)) =
      ([], [("minor", String.mk B), ("patch", String.mk C)]) :: t :=
    run_seq_head (.group "minor" .digits) (Rx.seq (.lit '.') (.group "patch" .digits))
      (B ++ ('.' :: C)) ('.' :: C) [] [("minor", String.mk B)]
      [("patch", String.mk C)] hgB hseq2
  have hL1 : ∃ t, (Rx.lit '.').run ('.' :: (B ++ ('.' :: C))) =
      ((B ++ ('.' :: C)), []) :: t := run_lit_head '.' (B ++ ('.' :: C))
  have hseq4 : ∃ t, (Rx.seq (.lit '.') (Rx.seq (.group "minor" .digits)
      (Rx.seq (.lit '.') (.group "patch" .digits)))).run ('.' :: (B ++ ('.' :: C))) =
      ([], [("minor", String.mk B), ("patch", String.mk C)]) :: t :=
    run_seq_head (.lit '.') (Rx.seq (.group "minor" .digits)
        (Rx.seq (.lit '.') (.group "patch" .digits)))
      ('.' :: (B ++ ('.' :: C))) (B ++ ('.' :: C)) [] []
      [("minor", String.mk B), ("patch", String.mk C)] hL1 hseq3
  have hdA : ∃ t, Rx.digits.run (A ++ ('.' :: (B ++ ('.' :: C)))) =
      (('.' :: (B ++ ('.' :: C))), []) :: t :=
    run_digits_head A ('.' :: (B ++ ('.' :: C))) hA hAd
      (by intro c hc; simp at hc; subst hc; decide)
  have hgA : ∃ t, (Rx.group "major" .digits).run (A ++ ('.' :: (B ++ ('.' :: C)))) =
      (('.' :: (B ++ ('.' :: C))), [("major", String.mk A)]) :: t :=
    run_group_head "major" .digits A ('.' :: (B ++ ('.' :: C))) [] hdA
  exact run_seq_head (.group "major" .digits)
    (Rx.seq (.lit '.') (Rx.seq (.group "minor" .digits)
      (Rx.seq (.lit '.') (.group "patch" .digits))))
    (A ++ ('.' :: (B ++ ('.' :: C)))) ('.' :: (B ++ ('.' :: C))) []
    [("major", String.mk A)] [("minor", String.mk B), ("patch", String.mk C)] hgA hseq4

/-- The parse of a dotted triple of digit runs by the default pattern:
every group participates and is bound to its run. -/
theorem parse_defaultRx (ctx : List (String × String))
    (parsed0 : List (String × VersionPart)) (A B C : List Char)
    (hA : A ≠ []) (hB : B ≠ []) (hC : C ≠ [])
    (hAd : ∀ c ∈ A, isDig c = true) (hBd : ∀ c ∈ B, isDig c = true)
    (hCd : ∀ c ∈ C, isDig c = true) :
    ((Version.mk defaultRx ["{major}.{minor}.{patch}"] ctx parsed0).parse
        (String.mk (A ++ ('.' :: (B ++ ('.' :: C))))))._parsed =
      [("major", ⟨some (String.mk A)⟩), ("minor", ⟨some (String.mk B)⟩),
       ("patch", ⟨some (String.mk C)⟩)] := by
  obtain ⟨t, ht⟩ := run_defaultRx_head A B C hA hB hC hAd hBd hCd
  have hne : A ++ ('.' :: (B ++ ('.' :: C))) ≠ [] := by
    cases A with
    | nil => exact absurd rfl hA
    | cons a A2 => simp
  have hsearch : rxSearchList defaultRx (A ++ ('.' :: (B ++ ('.' :: C)))) =
      some [("major", String.mk A), ("minor", String.mk B), ("patch", String.mk C)] :=
    searchList_of_run_head hne ht
  rw [Version_parse_eq _ _ _ hsearch]
  have k1 : lookupA [("major", String.mk A), ("minor", String.mk B),
      ("patch", String.mk C)] "major" = some (String.mk A) := by
    simp [lookupA]
  have k2 : lookupA [("major", String.mk A), ("minor", String.mk B),
      ("patch", String.mk C)] "minor" = some (String.mk B) := by
    have hd : ¬("major" = "minor") := by decide
    simp [lookupA, hd]
  have k3 : lookupA [("major", String.mk A), ("minor", String.mk B),
      ("patch", String.mk C)] "patch" = some (String.mk C) := by
    have hd1 : ¬("major" = "patch") := by decide
    have hd2 : ¬("minor" = "patch") := by decide
    simp [lookupA, hd1, hd2]
  show (["major", "minor", "patch"] : List String).map
      (fun n => (n, (⟨lookupA [("major", String.mk A), ("minor", String.mk B),
        ("patch", String.mk C)] n⟩ : VersionPart))) = _
  simp [k1, k2, k3]

theorem any_not_contains_false (keys : List String) (req : List (Option String))
    (h : ∀ x ∈ keys, req.contains (some x) = true) :
    keys.any (fun k => !req.contains (some k)) = false := by
  induction keys with
  | nil => rfl
  | cons a t ih =>
      have ha := h a (by simp)
      have ht : ∀ x ∈ t, req.contains (some x) = true := fun x hx => h x (by simp [hx])
      simp
      refine ⟨by simpa using ha, ?_⟩
      intro x hx
      simpa using ht x hx

theorem isProperSuperset_false_of_subset (keys : List String) (req : List (Option String))
    (h : ∀ x ∈ keys, req.contains (some x) = true) :
    isProperSuperset keys req = false := by
  unfold isProperSuperset
  rw [any_not_contains_false keys req h, Bool.and_false]

theorem substChunks_default (f : String → Option String) (a b c : String)
    (hfa : f "major" = some a) (hfb : f "minor" = some b) (hfc : f "patch" = some c) :
    substChunks [⟨"", some "major"⟩, ⟨".", some "minor"⟩, ⟨".", some "patch"⟩] f =
      .ok ((("" ++ a) ++ (("." ++ b) ++ (("." ++ c) ++ "")))) := by
  have s1 : isSimpleName "major" = true := by decide
  have s2 : isSimpleName "minor" = true := by decide
  have s3 : isSimpleName "patch" = true := by decide
  simp [substChunks, s1, s2, s3, hfa, hfb, hfc]

theorem default_render_eq (A B C : List Char) :
    ((("" ++ String.mk A) ++ (("." ++ String.mk B) ++ (("." ++ String.mk C) ++ ""))) :
      String) = String.mk (A ++ ('.' :: (B ++ ('.' :: C)))) := by
  apply string_ext
  have e0 : ("" : String).data = [] := rfl
  have e1 : ("." : String).data = ['.'] := rfl
  have eA : (String.mk A).data = A := rfl
  have eB : (String.mk B).data = B := rfl
  have eC : (String.mk C).data = C := rfl
  simp [e0, e1, eA, eB, eC]

/-- Serialization of a state holding exactly the three default
components with non-empty stored values: the single default template is
complete, chosen, and renders the dotted triple. -/
theorem serialize_default_state (v : Version) (A B C : List Char)
    (hA : A ≠ []) (hB : B ≠ []) (hC : C ≠ [])
    (hsf : v.serialize_formats = ["{major}.{minor}.{patch}"])
    (hparsed : v._parsed = [("major", ⟨some (String.mk A)⟩),
      ("minor", ⟨some (String.mk B)⟩), ("patch", ⟨some (String.mk C)⟩)]) :
    v.serialize = .ok (String.mk (A ++ ('.' :: (B ++ ('.' :: C)))))
    ∧ v._choose_serialize_format = .ok "{major}.{minor}.{patch}" := by
  have hAne : String.mk A ≠ "" := fun h => hA (by simpa using congrArg String.data h)
  have hBne : String.mk B ≠ "" := fun h => hB (by simpa using congrArg String.data h)
  have hCne : String.mk C ≠ "" := fun h => hC (by simpa using congrArg String.data h)
  have valA : (VersionPart.mk (some (String.mk A))).value = String.mk A := by
    show (if String.mk A = "" then ("0" : String) else String.mk A) = String.mk A
    exact if_neg hAne
  have valB : (VersionPart.mk (some (String.mk B))).value = String.mk B := by
    show (if String.mk B = "" then ("0" : String) else String.mk B) = String.mk B
    exact if_neg hBne
  have valC : (VersionPart.mk (some (String.mk C))).value = String.mk C := by
    show (if String.mk C = "" then ("0" : String) else String.mk C) = String.mk C
    exact if_neg hCne
  have lkA : lookupA v._parsed "major" = some ⟨some (String.mk A)⟩ := by
    rw [hparsed]
    simp [lookupA]
  have lkB : lookupA v._parsed "minor" = some ⟨some (String.mk B)⟩ := by
    rw [hparsed]
    have hd : ¬("major" = "minor") := by decide
    simp [lookupA, hd]
  have lkC : lookupA v._parsed "patch" = some ⟨some (String.mk C)⟩ := by
    rw [hparsed]
    have hd1 : ¬("major" = "patch") := by decide
    have hd2 : ¬("minor" = "patch") := by decide
    simp [lookupA, hd1, hd2]
  have rA : v.resolve "major" = some (String.mk A) := by
    unfold Version.resolve
    rw [lkA]
    show some (VersionPart.mk (some (String.mk A))).value = _
    rw [valA]
  have rB : v.resolve "minor" = some (String.mk B) := by
    unfold Version.resolve
    rw [lkB]
    show some (VersionPart.mk (some (String.mk B))).value = _
    rw [valB]
  have rC : v.resolve "patch" = some (String.mk C) := by
    unfold Version.resolve
    rw [lkC]
    show some (VersionPart.mk (some (String.mk C))).value = _
    rw [valC]
  have hchunks : fmtChunks "{major}.{minor}.{patch}" =
      some [⟨"", some "major"⟩, ⟨".", some "minor"⟩, ⟨".", some "patch"⟩] := by decide
  have hsub := substChunks_default v.resolve _ _ _ rA rB rC
  have hsubK : ∀ x ∈ keysNeedingRepresentation v._parsed false,
      ([some "major", some "minor", some "patch"] :
        List (Option String)).contains (some x) = true := by
    intro x hx
    have hxk := keysNeeding_subset v._parsed false x hx
    rw [hparsed] at hxk
    simp at hxk
    rcases hxk with rfl | rfl | rfl <;> decide
  have hps : isProperSuperset (keysNeedingRepresentation v._parsed false)
      [some "major", some "minor", some "patch"] = false :=
    isProperSuperset_false_of_subset _ _ hsubK
  have hser : v._serialize "{major}.{minor}.{patch}" true =
      .ok (String.mk (A ++ ('.' :: (B ++ ('.' :: C))))) := by
    rw [Version_serialize_fmt_eq v _ _ true hchunks, hsub]
    show (if true && isProperSuperset (keysNeedingRepresentation v._parsed false)
        ([⟨"", some "major"⟩, ⟨".", some "minor"⟩,
          (⟨".", some "patch"⟩ : FmtChunk)].map FmtChunk.field) then
        Except.error SerErr.incomplete
      else .ok ((("" ++ String.mk A) ++
        (("." ++ String.mk B) ++ (("." ++ String.mk C) ++ ""))))) = _
    rw [show ([⟨"", some "major"⟩, ⟨".", some "minor"⟩,
        (⟨".", some "patch"⟩ : FmtChunk)].map FmtChunk.field) =
      [some "major", some "minor", some "patch"] from rfl, hps]
    rw [if_neg (by decide : ¬((true && false) = true))]
    rw [default_render_eq A B C]
  have hca : chooseAux v ["{major}.{minor}.{patch}"] none =
      .ok (some "{major}.{minor}.{patch}") := by
    rw [chooseAux, hser]
    rfl
  have hpf : pyFalsy (some "{major}.{minor}.{patch}") = false := by decide
  have hch : v._choose_serialize_format = .ok "{major}.{minor}.{patch}" := by
    unfold Version._choose_serialize_format
    rw [hsf, hca]
    show (if pyFalsy (some "{major}.{minor}.{patch}") = true then
        Except.error SerErr.noSuitableFormat
      else Except.ok ((some "{major}.{minor}.{patch}").getD "")) = _
    rw [hpf]
    simp
  refine ⟨?_, hch⟩
  unfold Version.serialize
  rw [hch]
  exact serialize_plain_of_raise_ok v _ _ hser

/-- C8 counterexample.  The parse is a search: on "x1.2.3" the default
pattern matches the substring "1.2.3" with every named group
participating, the first (and only) template is chosen, yet serialize
returns "1.2.3", not the original string — the round trip reproduces
the matched substring, not s. -/
theorem c8_counterexample :
    ((mkVersion defaultRx ["{major}.{minor}.{patch}"] []).parse "x1.2.3").serialize =
      .ok "1.2.3"
    ∧ ((mkVersion defaultRx ["{major}.{minor}.{patch}"] []).parse "x1.2.3")._parsed =
        [("major", ⟨some "1"⟩), ("minor", ⟨some "2"⟩), ("patch", ⟨some "3"⟩)]
    ∧ ((mkVersion defaultRx ["{major}.{minor}.{patch}"] []).parse
        "x1.2.3")._choose_serialize_format = .ok "{major}.{minor}.{patch}"
    ∧ ("1.2.3" : String) ≠ "x1.2.3" := by
  exact ⟨by decide, by decide, by decide, by decide⟩

/-- C8 as amended.  For the default configuration — pattern of three
dotted digit-run groups, single template of the same shape — and for
every string that is exactly a dotted triple of non-empty digit runs,
serialize right after parse reproduces the string, and the chosen
template is the first one.  (For other strings the render reproduces
only the matched substring, as the counterexample shows.) -/
theorem c8_amended_roundtrip (ctx : List (String × String))
    (parsed0 : List (String × VersionPart)) (A B C : List Char)
    (hA : A ≠ []) (hB : B ≠ []) (hC : C ≠ [])
    (hAd : ∀ c ∈ A, isDig c = true) (hBd : ∀ c ∈ B, isDig c = true)
    (hCd : ∀ c ∈ C, isDig c = true) :
    ((Version.mk defaultRx ["{major}.{minor}.{patch}"] ctx parsed0).parse
        (String.mk (A ++ ('.' :: (B ++ ('.' :: C)))))).serialize =
      .ok (String.mk (A ++ ('.' :: (B ++ ('.' :: C)))))
    ∧ ((Version.mk defaultRx ["{major}.{minor}.{patch}"] ctx parsed0).parse
        (String.mk (A ++ ('.' :: (B ++ ('.' :: C))))))._choose_serialize_format =
      .ok "{major}.{minor}.{patch}" := by
  have hp := parse_defaultRx ctx parsed0 A B C hA hB hC hAd hBd hCd
  have hf := parse_preserves_other_fields
    (Version.mk defaultRx ["{major}.{minor}.{patch}"] ctx parsed0)
    (String.mk (A ++ ('.' :: (B ++ ('.' :: C)))))
  exact serialize_default_state _ A B C hA hB hC hf.1 hp

/-- C8 witness: the round trip at "1.4.9" under the default
configuration. -/
theorem c8_amended_witness :
    ((mkVersion defaultRx ["{major}.{minor}.{patch}"] []).parse "1.4.9").serialize =
      .ok "1.4.9"
    ∧ ((mkVersion defaultRx ["{major}.{minor}.{patch}"] []).parse
        "1.4.9")._choose_serialize_format = .ok "{major}.{minor}.{patch}" := by
  have h := c8_amended_roundtrip [] [] ['1'] ['4'] ['9']
    (by decide) (by decide) (by decide) (by decide) (by decide) (by decide)
  exact ⟨h.1.trans (by decide), h.2⟩

